import Mathlib

/-!
Shallow embedding of the GPU metrics pipeline of `gpus.go` from the
`slurm_exporter` repository.

Modelling conventions:
- Go strings are modelled as `List Char`; the output text of the external
  commands (`squeue`, `sinfo`) executed by `Execute` is passed to the parser
  functions as an explicit argument.
- Go `float64` values are modelled by `GoFloat`: an exact rational for the
  finite values together with the special values `+Inf`, `-Inf` and `NaN`.
  Arithmetic on finite values is exact (rounding, overflow to infinity and
  the sign of zero are not modelled); the special values propagate through
  addition and division following IEEE 754 as implemented by Go.
- `strconv.ParseFloat` is modelled for the decimal syntax together with the
  `Inf`/`Infinity`/`NaN` special spellings it recognises (hexadecimal float
  literals and digit-separating underscores are not modelled).  The Go code
  discards the returned error, which yields the value `0` on a syntax
  error: `parseFloat` below is total and returns `0` in that case, while
  `parseFloatO` exposes the error as `none`.
- Go maps `map[string]float64` are modelled as association lists built by
  `addTo`, which mirrors `m[k] += v` (update in place, append when absent).
- A Go runtime panic from an out-of-range index (`values[1]`,
  `strings.Fields(line)[1]`, `strings.Split(resource, ":")[2]`) is modelled
  by the parsers returning `none`.
-/

attribute [local semireducible] Rat.add Rat.mul Rat.inv Rat.sub Rat.ofScientific

namespace Slurm

abbrev Chars := List Char

/-- Exact model of Go `float64` values: finite values are exact rationals,
plus the IEEE special values. -/
inductive GoFloat where
  | finite (q : ℚ)
  | posInf
  | negInf
  | nan
deriving DecidableEq

namespace GoFloat

/-- IEEE addition (exact on finite values). -/
def add : GoFloat → GoFloat → GoFloat
  | nan, _ => nan
  | _, nan => nan
  | posInf, negInf => nan
  | negInf, posInf => nan
  | posInf, _ => posInf
  | _, posInf => posInf
  | negInf, _ => negInf
  | _, negInf => negInf
  | finite a, finite b => finite (a + b)

/-- IEEE negation. -/
def neg : GoFloat → GoFloat
  | finite q => finite (-q)
  | posInf => negInf
  | negInf => posInf
  | nan => nan

/-- IEEE subtraction, `a - b = a + (-b)`. -/
def sub (a b : GoFloat) : GoFloat := add a (neg b)

/-- IEEE division (exact on finite values; the sign of zero is not
modelled, zero behaves as `+0`). -/
def div : GoFloat → GoFloat → GoFloat
  | nan, _ => nan
  | _, nan => nan
  | posInf, posInf => nan
  | posInf, negInf => nan
  | negInf, posInf => nan
  | negInf, negInf => nan
  | posInf, finite q => if 0 ≤ q then posInf else negInf
  | negInf, finite q => if 0 ≤ q then negInf else posInf
  | finite _, posInf => finite 0
  | finite _, negInf => finite 0
  | finite a, finite b =>
    if b = 0 then (if a = 0 then nan else if 0 < a then posInf else negInf)
    else finite (a / b)

/-- IEEE `≤` comparison: any comparison with `NaN` is false. -/
def le : GoFloat → GoFloat → Bool
  | nan, _ => false
  | _, nan => false
  | negInf, _ => true
  | _, posInf => true
  | posInf, _ => false
  | _, negInf => false
  | finite a, finite b => decide (a ≤ b)

/-- IEEE `<` comparison: any comparison with `NaN` is false. -/
def lt : GoFloat → GoFloat → Bool
  | nan, _ => false
  | _, nan => false
  | posInf, _ => false
  | _, posInf => true
  | _, negInf => false
  | negInf, _ => true
  | finite a, finite b => decide (a < b)

/-- A value is finite when it is neither infinite nor `NaN`. -/
def isFinite : GoFloat → Bool
  | finite _ => true
  | _ => false

end GoFloat

/-! ### String helpers (Go `strings` package on `List Char`) -/

/-- Split on every character satisfying `p`; like Go `strings.Split` the
result is never empty and keeps empty segments. -/
def splitOnP (p : Char → Bool) : Chars → List Chars
  | [] => [[]]
  | c :: cs =>
    match splitOnP p cs with
    | [] => [[]]
    | h :: t => if p c then [] :: h :: t else (c :: h) :: t

/-- Go `strings.Split(s, sep)` for a one-character separator. -/
def splitOnChar (sep : Char) (l : Chars) : List Chars :=
  splitOnP (fun c => c == sep) l

/-- Go `strings.Trim(s, "\"")`: remove leading and trailing quote
characters. -/
def trimQuote (l : Chars) : Chars :=
  ((l.dropWhile (fun c => c == '"')).reverse.dropWhile (fun c => c == '"')).reverse

/-- Go `unicode.IsSpace` restricted to Latin-1 (the white space characters
relevant to the parsed command output). -/
def goIsSpace (c : Char) : Bool :=
  c == ' ' || c == '\t' || c == '\n' || c == '\x0b' || c == '\x0c' ||
    c == '\r' || c == '\x85' || c == '\xa0'

/-- Go `strings.Fields`: split around runs of white space, dropping empty
segments. -/
def fields (l : Chars) : List Chars :=
  (splitOnP goIsSpace l).filter (fun f => !f.isEmpty)

/-- When `pre` is a prefix of `l`, return the remainder (this combines the
Go `strings.HasPrefix` test with `strings.TrimPrefix`). -/
def afterPre : Chars → Chars → Option Chars
  | [], l => some l
  | _ :: _, [] => none
  | p :: ps, c :: cs => if p = c then afterPre ps cs else none

/-! ### Model of Go `strconv.ParseFloat` -/

/-- Numeric value of a decimal digit character. -/
def digVal (c : Char) : Nat := c.toNat - 48

/-- A non-empty all-digit string. -/
def isDigits (l : Chars) : Bool := !l.isEmpty && l.all Char.isDigit

/-- Value of a digit string. -/
def natOfDigits (l : Chars) : Nat := l.foldl (fun a c => 10 * a + digVal c) 0

/-- Lower-case a string for the case-insensitive special spellings. -/
def toLowerChars (l : Chars) : Chars := l.map Char.toLower

/-- Parse the mantissa `digits [. digits]` (at least one digit in total). -/
def parseMantissa (l : Chars) : Option ℚ :=
  match splitOnChar '.' l with
  | [ip] => if isDigits ip then some (natOfDigits ip : ℚ) else none
  | [ip, fp] =>
    if ip.all Char.isDigit && fp.all Char.isDigit && !(ip.isEmpty && fp.isEmpty) then
      some ((natOfDigits ip : ℚ) + (natOfDigits fp : ℚ) / (10 : ℚ) ^ fp.length)
    else none
  | _ => none

/-- Parse a signed exponent, `[+|-] digits`. -/
def parseExp (l : Chars) : Option Int :=
  match l with
  | '+' :: ds => if isDigits ds then some (natOfDigits ds : Int) else none
  | '-' :: ds => if isDigits ds then some (-(natOfDigits ds : Int)) else none
  | ds => if isDigits ds then some (natOfDigits ds : Int) else none

/-- Parse an unsigned decimal number `mantissa [(e|E) exponent]`. -/
def parseNum (l : Chars) : Option ℚ :=
  match l.span (fun c => !((c == 'e') || (c == 'E'))) with
  | (m, []) => parseMantissa m
  | (m, _ :: e) =>
    match parseMantissa m, parseExp e with
    | some q, some ex => some (q * (10 : ℚ) ^ ex)
    | _, _ => none

/-- Parse after an (already consumed) optional sign: the special infinity
spellings or an unsigned decimal number. -/
def parseSigned (neg : Bool) (l : Chars) : Option GoFloat :=
  if toLowerChars l = "inf".data ∨ toLowerChars l = "infinity".data then
    some (if neg then GoFloat.negInf else GoFloat.posInf)
  else (parseNum l).map fun q => GoFloat.finite (if neg then -q else q)

/-- Go `strconv.ParseFloat` with the error made explicit: `none` on a
syntax error.  `NaN` is only recognised unsigned, `Inf`/`Infinity` also
with a sign, both case-insensitively. -/
def parseFloatO (l : Chars) : Option GoFloat :=
  match l with
  | '+' :: rest => parseSigned false rest
  | '-' :: rest => parseSigned true rest
  | rest =>
    if toLowerChars rest = "nan".data then some GoFloat.nan
    else parseSigned false rest

/-- Go `count, _ := strconv.ParseFloat(s, 64)` with the error discarded: a
syntax error yields the value `0`. -/
def parseFloat (l : Chars) : GoFloat := (parseFloatO l).getD (GoFloat.finite 0)

/-! ### Go maps `map[string]float64` as association lists -/

abbrev FMap := List (Chars × GoFloat)

/-- Go `m[k] += v`: a missing key reads as the zero value. -/
def addTo (m : FMap) (k : Chars) (v : GoFloat) : FMap :=
  match m with
  | [] => [(k, v)]
  | (k1, v1) :: rest =>
    if k1 = k then (k1, GoFloat.add v1 v) :: rest else (k1, v1) :: addTo rest k v

/-- Go map read `m[k]`: the zero value when the key is absent. -/
def findVal (m : FMap) (k : Chars) : GoFloat :=
  match m with
  | [] => GoFloat.finite 0
  | (k1, v1) :: rest => if k1 = k then v1 else findVal rest k

/-- Key membership in the map. -/
def hasKey (m : FMap) (k : Chars) : Bool :=
  match m with
  | [] => false
  | (k1, _) :: rest => k1 = k || hasKey rest k

/-! ### `ParseAllocatedGPUs` -/

/-- Inner loop of `ParseAllocatedGPUs` over the comma-separated tokens of
one line: a token with the `gres/gpu:` prefix is split on `=`; `values[0]`
keys the map and `values[1]` is parsed as a float.  A missing `values[1]`
is an out-of-range panic, modelled as `none`. -/
def allocResources (m : FMap) : List Chars → Option FMap
  | [] => some m
  | r :: rs =>
    match afterPre "gres/gpu:".data r with
    | none => allocResources m rs
    | some descriptor =>
      match splitOnChar '=' descriptor with
      | gpuType :: countText :: _ =>
        allocResources (addTo m gpuType (parseFloat countText)) rs
      | _ => none

/-- One line of `ParseAllocatedGPUs`: skip empty lines, trim quotes, split
on commas. -/
def allocLine (m : FMap) (line : Chars) : Option FMap :=
  if line.length = 0 then some m
  else allocResources m (splitOnChar ',' (trimQuote line))

/-- The line loop of `ParseAllocatedGPUs`. -/
def allocLines (m : FMap) : List Chars → Option FMap
  | [] => some m
  | l :: ls =>
    match allocLine m l with
    | none => none
    | some m2 => allocLines m2 ls

/-- `ParseAllocatedGPUs` of `gpus.go`, with the `squeue` output text as the
explicit argument. -/
def ParseAllocatedGPUs (output : Chars) : Option FMap :=
  if output.length = 0 then some []
  else allocLines [] (splitOnChar '\n' output)

/-! ### `ParseTotalGPUs` -/

/-- Inner loop of `ParseTotalGPUs` over the comma-separated tokens of one
node's gres column: a token with the `gpu:` prefix is split on `:`; segment
2 up to the first `(` is the count, segment 1 the type.  A missing segment
2 is an out-of-range panic, modelled as `none`. -/
def totalResources (m : FMap) : List Chars → Option FMap
  | [] => some m
  | r :: rs =>
    if (afterPre "gpu:".data r).isSome then
      match splitOnChar ':' r with
      | _ :: gpuType :: descriptor :: _ =>
        totalResources (addTo m gpuType (parseFloat ((splitOnChar '(' descriptor).headD []))) rs
      | _ => none
    else totalResources m rs

/-- One line of `ParseTotalGPUs`: skip empty lines, trim quotes, take field
1 of the white-space split as the gres column (out-of-range panic when the
line has fewer than two fields, modelled as `none`). -/
def totalLine (m : FMap) (line : Chars) : Option FMap :=
  if line.length = 0 then some m
  else
    match fields (trimQuote line) with
    | _ :: gres :: _ => totalResources m (splitOnChar ',' gres)
    | _ => none

/-- The line loop of `ParseTotalGPUs`. -/
def totalLines (m : FMap) : List Chars → Option FMap
  | [] => some m
  | l :: ls =>
    match totalLine m l with
    | none => none
    | some m2 => totalLines m2 ls

/-- `ParseTotalGPUs` of `gpus.go`, with the `sinfo` output text as the
explicit argument. -/
def ParseTotalGPUs (output : Chars) : Option FMap :=
  if output.length = 0 then some []
  else totalLines [] (splitOnChar '\n' output)

/-! ### `ParseGPUsMetrics` -/

/-- The `GPUsMetrics` struct of `gpus.go`. -/
structure GPUsMetrics where
  alloc : GoFloat
  idle : GoFloat
  total : GoFloat
  utilization : GoFloat
deriving DecidableEq

/-- The record built for one GPU type in the loop of `ParseGPUsMetrics`:
`alloc[gpu_type]` (zero value when absent), `totals[gpu_type]`, their
difference and their quotient. -/
def mkRec (totals alloc : FMap) (k : Chars) : GPUsMetrics :=
  { alloc := findVal alloc k
  , idle := GoFloat.sub (findVal totals k) (findVal alloc k)
  , total := findVal totals k
  , utilization := GoFloat.div (findVal alloc k) (findVal totals k) }

/-- The aggregation loop of `ParseGPUsMetrics`: one record per key of the
totals map. -/
def aggregate (totals alloc : FMap) : List (Chars × GPUsMetrics) :=
  totals.map fun p => (p.1, mkRec totals alloc p.1)

/-- Lookup in the aggregated output. -/
def findRec : List (Chars × GPUsMetrics) → Chars → Option GPUsMetrics
  | [], _ => none
  | (k1, r) :: rest, k => if k1 = k then some r else findRec rest k

/-- `ParseGPUsMetrics` of `gpus.go`, with the outputs of the two executed
commands as explicit arguments; `none` models a panic in either parser. -/
def ParseGPUsMetrics (allocOutput invOutput : Chars) : Option (List (Chars × GPUsMetrics)) :=
  match ParseTotalGPUs invOutput, ParseAllocatedGPUs allocOutput with
  | some totals, some alloc => some (aggregate totals alloc)
  | _, _ => none

/-! ### Arithmetic lemmas for `GoFloat` -/

theorem GoFloat.zero_add (x : GoFloat) : GoFloat.add (GoFloat.finite 0) x = x := by
  cases x <;> simp [GoFloat.add]

theorem GoFloat.add_zero (x : GoFloat) : GoFloat.add x (GoFloat.finite 0) = x := by
  cases x <;> simp [GoFloat.add]

theorem GoFloat.add_nonneg {a b : GoFloat}
    (ha : GoFloat.le (GoFloat.finite 0) a = true)
    (hb : GoFloat.le (GoFloat.finite 0) b = true) :
    GoFloat.le (GoFloat.finite 0) (GoFloat.add a b) = true := by
  cases a <;> cases b <;> simp_all [GoFloat.le, GoFloat.add] <;> positivity

/-! ### Lemmas on the map operations -/

theorem findVal_addTo (m : FMap) (k k2 : Chars) (v : GoFloat) :
    findVal (addTo m k v) k2 =
      if k = k2 then GoFloat.add (findVal m k2) v else findVal m k2 := by
  induction m with
  | nil =>
    by_cases h : k = k2 <;> simp [addTo, findVal, h, GoFloat.zero_add]
  | cons p rest ih =>
    obtain ⟨k1, v1⟩ := p
    by_cases h1 : k1 = k
    · subst h1
      by_cases h2 : k1 = k2
      · subst h2; simp [addTo, findVal]
      · simp [addTo, findVal, h2, fun h : k1 = k2 => h2 h]
    · by_cases h2 : k1 = k2
      · subst h2
        simp [addTo, findVal, h1, Ne.symm h1]
      · simp [addTo, findVal, h1, h2, ih]

/-! ### Splitting lemmas -/

theorem afterPre_append (pre l : Chars) : afterPre pre (pre ++ l) = some l := by
  induction pre with
  | nil => rfl
  | cons c cs ih => simp [afterPre, ih]

/-! ### Per-key contribution lists of the inventory parser

The value accumulated for one GPU type is the left fold of the code's
float addition over the counts contributed to that type, in the order the
parser encounters them: one addition per matching token, exactly the
sequence of `gpu_map[type_gpu] += node_gpus` updates the loop executes. -/

/-- Counts contributed to key `k` by the tokens of one gres column, in
order (only meaningful on token lists the parser accepts). -/
def tokContribsT (k : Chars) : List Chars → List GoFloat
  | [] => []
  | r :: rs =>
    if (afterPre "gpu:".data r).isSome then
      match splitOnChar ':' r with
      | _ :: gpuType :: descriptor :: _ =>
        if gpuType = k then
          parseFloat ((splitOnChar '(' descriptor).headD []) :: tokContribsT k rs
        else tokContribsT k rs
      | _ => tokContribsT k rs
    else tokContribsT k rs

/-- Counts contributed to key `k` by one inventory line, in order. -/
def lineContribsT (k : Chars) (line : Chars) : List GoFloat :=
  if line.length = 0 then []
  else
    match fields (trimQuote line) with
    | _ :: gres :: _ => tokContribsT k (splitOnChar ',' gres)
    | _ => []

/-- Counts contributed to key `k` by the whole inventory output, in
order. -/
def totalContribs (output : Chars) (k : Chars) : List GoFloat :=
  ((splitOnChar '\n' output).map (lineContribsT k)).flatten

theorem findVal_totalResources_fold (toks : List Chars) (m ma : FMap) (k : Chars)
    (h : totalResources m toks = some ma) :
    findVal ma k = (tokContribsT k toks).foldl GoFloat.add (findVal m k) := by
  induction toks generalizing m with
  | nil =>
    simp only [totalResources, Option.some.injEq] at h
    subst h
    rfl
  | cons r rs ih =>
    simp only [totalResources] at h
    simp only [tokContribsT]
    by_cases hp : (afterPre "gpu:".data r).isSome = true
    · simp only [hp, if_true] at h ⊢
      cases hsp : splitOnChar ':' r with
      | nil => rw [hsp] at h; cases h
      | cons s0 rest =>
        cases rest with
        | nil => rw [hsp] at h; cases h
        | cons s1 rest2 =>
          cases rest2 with
          | nil => rw [hsp] at h; cases h
          | cons s2 rest3 =>
            rw [hsp] at h
            replace h : totalResources
                (addTo m s1 (parseFloat ((splitOnChar '(' s2).headD []))) rs = some ma := h
            by_cases hk : s1 = k
            · simp only [hk, if_true, List.foldl_cons]
              rw [ih _ h, findVal_addTo]
              simp [hk]
            · simp only [hk, if_false]
              rw [ih _ h, findVal_addTo]
              simp [hk]
    · simp only [Bool.not_eq_true] at hp
      simp only [hp, Bool.false_eq_true, if_false] at h ⊢
      exact ih _ h

theorem findVal_totalLine_fold (line : Chars) (m ma : FMap) (k : Chars)
    (h : totalLine m line = some ma) :
    findVal ma k = (lineContribsT k line).foldl GoFloat.add (findVal m k) := by
  simp only [totalLine] at h
  simp only [lineContribsT]
  by_cases hl : line.length = 0
  · simp only [hl, if_true, Option.some.injEq] at h ⊢
    subst h
    rfl
  · simp only [hl, if_false] at h ⊢
    cases hf : fields (trimQuote line) with
    | nil => rw [hf] at h; cases h
    | cons f0 rest =>
      cases rest with
      | nil => rw [hf] at h; cases h
      | cons gres rest2 =>
        rw [hf] at h
        exact findVal_totalResources_fold _ _ _ _ h

theorem findVal_totalLines_fold (ls : List Chars) (m ma : FMap) (k : Chars)
    (h : totalLines m ls = some ma) :
    findVal ma k = ((ls.map (lineContribsT k)).flatten).foldl GoFloat.add (findVal m k) := by
  induction ls generalizing m with
  | nil =>
    simp only [totalLines, Option.some.injEq] at h
    subst h
    rfl
  | cons l ls ih =>
    simp only [totalLines] at h
    cases h1 : totalLine m l with
    | none => rw [h1] at h; cases h
    | some m2 =>
      rw [h1] at h
      replace h : totalLines m2 ls = some ma := h
      simp only [List.map_cons, List.flatten_cons, List.foldl_append]
      rw [ih _ h, findVal_totalLine_fold l m m2 k h1]

theorem ParseTotalGPUs_eq (s : Chars) :
    ParseTotalGPUs s = totalLines [] (splitOnChar '\n' s) := by
  cases s with
  | nil => rfl
  | cons c cs => simp [ParseTotalGPUs]

/-! ### Non-negativity predicates and preservation lemmas -/

/-- All values of a map are non-negative (in the IEEE order, which also
excludes `NaN` values). -/
def valsNonneg : FMap → Bool
  | [] => true
  | p :: rest => GoFloat.le (GoFloat.finite 0) p.2 && valsNonneg rest

/-- The count parsed from an allocation token is non-negative (vacuously
true for tokens the parser ignores or panics on). -/
def tokOKA (r : Chars) : Bool :=
  match afterPre "gres/gpu:".data r with
  | none => true
  | some d =>
    match splitOnChar '=' d with
    | _ :: ct :: _ => GoFloat.le (GoFloat.finite 0) (parseFloat ct)
    | _ => true

/-- All counts of one allocation line are non-negative. -/
def lineOKA (line : Chars) : Bool :=
  line.isEmpty || (splitOnChar ',' (trimQuote line)).all tokOKA

/-- All counts in the allocation-query output are non-negative. -/
def allocCountsNonneg (output : Chars) : Bool :=
  (splitOnChar '\n' output).all lineOKA

/-- The count parsed from an inventory token is non-negative (vacuously
true for tokens the parser ignores or panics on). -/
def tokOKT (r : Chars) : Bool :=
  if (afterPre "gpu:".data r).isSome then
    match splitOnChar ':' r with
    | _ :: _ :: descriptor :: _ =>
      GoFloat.le (GoFloat.finite 0) (parseFloat ((splitOnChar '(' descriptor).headD []))
    | _ => true
  else true

/-- All counts of one inventory line are non-negative. -/
def lineOKT (line : Chars) : Bool :=
  line.isEmpty ||
    (match fields (trimQuote line) with
     | _ :: gres :: _ => (splitOnChar ',' gres).all tokOKT
     | _ => true)

/-- All counts in the inventory-query output are non-negative. -/
def totalCountsNonneg (output : Chars) : Bool :=
  (splitOnChar '\n' output).all lineOKT

theorem valsNonneg_addTo (m : FMap) (k : Chars) (v : GoFloat)
    (hm : valsNonneg m = true) (hv : GoFloat.le (GoFloat.finite 0) v = true) :
    valsNonneg (addTo m k v) = true := by
  induction m with
  | nil => simp [valsNonneg, addTo, hv]
  | cons p rest ih =>
    obtain ⟨k1, v1⟩ := p
    simp only [valsNonneg, Bool.and_eq_true] at hm
    by_cases h : k1 = k
    · simp only [addTo, h, if_true]
      simp [valsNonneg, GoFloat.add_nonneg hm.1 hv, hm.2]
    · simp only [addTo, h, if_false]
      simp [valsNonneg, hm.1, ih hm.2]

theorem allocResources_nonneg (toks : List Chars) (m ma : FMap)
    (ht : toks.all tokOKA = true) (hm : valsNonneg m = true)
    (h : allocResources m toks = some ma) : valsNonneg ma = true := by
  induction toks generalizing m with
  | nil =>
    simp only [allocResources, Option.some.injEq] at h
    subst h; exact hm
  | cons r rs ih =>
    simp only [List.all_cons, Bool.and_eq_true] at ht
    simp only [allocResources] at h
    cases hpre : afterPre "gres/gpu:".data r with
    | none => rw [hpre] at h; exact ih _ ht.2 hm h
    | some d =>
      rw [hpre] at h
      replace h : (match splitOnChar '=' d with
        | gpuType :: countText :: _ =>
          allocResources (addTo m gpuType (parseFloat countText)) rs
        | _ => none) = some ma := h
      cases hsp : splitOnChar '=' d with
      | nil => rw [hsp] at h; cases h
      | cons ty rest1 =>
        cases rest1 with
        | nil => rw [hsp] at h; cases h
        | cons ct rest2 =>
          rw [hsp] at h
          replace h : allocResources (addTo m ty (parseFloat ct)) rs = some ma := h
          refine ih _ ht.2 (valsNonneg_addTo _ _ _ hm ?_) h
          simpa [tokOKA, hpre, hsp] using ht.1

theorem allocLine_nonneg (line : Chars) (m ma : FMap)
    (hl : lineOKA line = true) (hm : valsNonneg m = true)
    (h : allocLine m line = some ma) : valsNonneg ma = true := by
  simp only [allocLine] at h
  by_cases he : line.length = 0
  · simp only [he, if_true, Option.some.injEq] at h
    subst h; exact hm
  · simp only [he, if_false] at h
    have hne : line.isEmpty = false := by
      cases line with
      | nil => simp at he
      | cons c cs => rfl
    have ht : (splitOnChar ',' (trimQuote line)).all tokOKA = true := by
      simpa [lineOKA, hne] using hl
    exact allocResources_nonneg _ _ _ ht hm h

theorem allocLines_nonneg (ls : List Chars) (m ma : FMap)
    (hl : ls.all lineOKA = true) (hm : valsNonneg m = true)
    (h : allocLines m ls = some ma) : valsNonneg ma = true := by
  induction ls generalizing m with
  | nil =>
    simp only [allocLines, Option.some.injEq] at h
    subst h; exact hm
  | cons l ls ih =>
    simp only [List.all_cons, Bool.and_eq_true] at hl
    simp only [allocLines] at h
    cases h1 : allocLine m l with
    | none => rw [h1] at h; cases h
    | some m2 =>
      rw [h1] at h
      replace h : allocLines m2 ls = some ma := h
      exact ih _ hl.2 (allocLine_nonneg l m m2 hl.1 hm h1) h

theorem totalResources_nonneg (toks : List Chars) (m ma : FMap)
    (ht : toks.all tokOKT = true) (hm : valsNonneg m = true)
    (h : totalResources m toks = some ma) : valsNonneg ma = true := by
  induction toks generalizing m with
  | nil =>
    simp only [totalResources, Option.some.injEq] at h
    subst h; exact hm
  | cons r rs ih =>
    simp only [List.all_cons, Bool.and_eq_true] at ht
    simp only [totalResources] at h
    by_cases hp : (afterPre "gpu:".data r).isSome = true
    · simp only [hp, if_true] at h
      cases hsp : splitOnChar ':' r with
      | nil => rw [hsp] at h; cases h
      | cons s0 rest =>
        cases rest with
        | nil => rw [hsp] at h; cases h
        | cons s1 rest2 =>
          cases rest2 with
          | nil => rw [hsp] at h; cases h
          | cons s2 rest3 =>
            rw [hsp] at h
            replace h : totalResources
                (addTo m s1 (parseFloat ((splitOnChar '(' s2).headD []))) rs = some ma := h
            refine ih _ ht.2 (valsNonneg_addTo _ _ _ hm ?_) h
            simpa [tokOKT, hp, hsp] using ht.1
    · simp only [Bool.not_eq_true] at hp
      simp only [hp, Bool.false_eq_true, if_false] at h
      exact ih _ ht.2 hm h

theorem totalLine_nonneg (line : Chars) (m ma : FMap)
    (hl : lineOKT line = true) (hm : valsNonneg m = true)
    (h : totalLine m line = some ma) : valsNonneg ma = true := by
  simp only [totalLine] at h
  by_cases he : line.length = 0
  · simp only [he, if_true, Option.some.injEq] at h
    subst h; exact hm
  · simp only [he, if_false] at h
    have hne : line.isEmpty = false := by
      cases line with
      | nil => simp at he
      | cons c cs => rfl
    cases hf : fields (trimQuote line) with
    | nil => rw [hf] at h; cases h
    | cons f0 rest =>
      cases rest with
      | nil => rw [hf] at h; cases h
      | cons gres rest2 =>
        rw [hf] at h
        replace h : totalResources m (splitOnChar ',' gres) = some ma := h
        have ht : (splitOnChar ',' gres).all tokOKT = true := by
          simpa [lineOKT, hne, hf] using hl
        exact totalResources_nonneg _ _ _ ht hm h

theorem totalLines_nonneg (ls : List Chars) (m ma : FMap)
    (hl : ls.all lineOKT = true) (hm : valsNonneg m = true)
    (h : totalLines m ls = some ma) : valsNonneg ma = true := by
  induction ls generalizing m with
  | nil =>
    simp only [totalLines, Option.some.injEq] at h
    subst h; exact hm
  | cons l ls ih =>
    simp only [List.all_cons, Bool.and_eq_true] at hl
    simp only [totalLines] at h
    cases h1 : totalLine m l with
    | none => rw [h1] at h; cases h
    | some m2 =>
      rw [h1] at h
      replace h : totalLines m2 ls = some ma := h
      exact ih _ hl.2 (totalLine_nonneg l m m2 hl.1 hm h1) h

/-! ### Lemmas on the aggregation loop -/

theorem findRec_mapRec (t a l : FMap) (k : Chars) (h : hasKey l k = true) :
    findRec (l.map fun p => (p.1, mkRec t a p.1)) k = some (mkRec t a k) := by
  induction l with
  | nil => simp [hasKey] at h
  | cons p rest ih =>
    by_cases h1 : p.1 = k
    · subst h1; simp [findRec]
    · have hr : hasKey rest k = true := by
        simpa [hasKey, h1] using h
      simp [findRec, h1, ih hr]

theorem findRec_mapRec_none (t a l : FMap) (k : Chars) (h : hasKey l k = false) :
    findRec (l.map fun p => (p.1, mkRec t a p.1)) k = none := by
  induction l with
  | nil => simp [findRec]
  | cons p rest ih =>
    simp only [hasKey, Bool.or_eq_false_iff] at h
    have h1 : ¬ p.1 = k := by simpa using h.1
    simp [findRec, h1, ih h.2]

theorem findRec_mapRec_inv (t a l : FMap) (k : Chars) (r : GPUsMetrics)
    (h : findRec (l.map fun p => (p.1, mkRec t a p.1)) k = some r) :
    r = mkRec t a k := by
  induction l with
  | nil => simp [findRec] at h
  | cons p rest ih =>
    by_cases h1 : p.1 = k
    · subst h1
      simp [findRec] at h
      exact h.symm
    · simp [findRec, h1] at h
      exact ih h

/-! ### Claim theorems -/

/-- C1: end-to-end round trip on the fixed sample: the Allocation Parser on
`"gres/gpu:a100=2,cpu=1"` and the Inventory Parser on
`"node01 gpu:a100:4(S:0)"`, aggregated, yield exactly one record, for key
`a100`, with alloc = 2, total = 4, idle = 2 and utilization = 0.5. -/
theorem C1_round_trip :
    ParseGPUsMetrics "gres/gpu:a100=2,cpu=1".data "node01 gpu:a100:4(S:0)".data =
      some [("a100".data,
        { alloc := GoFloat.finite 2, idle := GoFloat.finite 2
        , total := GoFloat.finite 4, utilization := GoFloat.finite (1/2) })] := by
  decide

/-- C2: for every pair of maps and every key of the inventory map, the
aggregated record has alloc the allocation-map lookup (zero value when
absent), total the inventory value, idle their difference, and utilization
their quotient. -/
theorem C2_aggregator_contract (totals alloc : FMap) (k : Chars)
    (h : hasKey totals k = true) :
    findRec (aggregate totals alloc) k =
      some { alloc := findVal alloc k
           , idle := GoFloat.sub (findVal totals k) (findVal alloc k)
           , total := findVal totals k
           , utilization := GoFloat.div (findVal alloc k) (findVal totals k) } := by
  have hm := findRec_mapRec totals alloc totals k h
  simpa [aggregate, mkRec] using hm

/-- Witness for C2 at a concrete inventory map with an empty allocation
map. -/
theorem C2_witness :
    findRec (aggregate [("a100".data, GoFloat.finite 4)] []) "a100".data =
      some { alloc := findVal [] "a100".data
           , idle := GoFloat.sub (findVal [("a100".data, GoFloat.finite 4)] "a100".data)
                       (findVal [] "a100".data)
           , total := findVal [("a100".data, GoFloat.finite 4)] "a100".data
           , utilization := GoFloat.div (findVal [] "a100".data)
                       (findVal [("a100".data, GoFloat.finite 4)] "a100".data) } :=
  C2_aggregator_contract [("a100".data, GoFloat.finite 4)] [] "a100".data (by decide)

/-- C3 fails as stated: a negative allocated-count token (which Go
`strconv.ParseFloat` accepts) yields a record with total > 0 but a negative
utilization, refuting `0 ≤ utilization`. -/
theorem C3_counterexample :
    ParseGPUsMetrics "gres/gpu:a100=-8".data "node01 gpu:a100:4(S:0)".data =
      some [("a100".data,
        { alloc := GoFloat.finite (-8), idle := GoFloat.finite 12
        , total := GoFloat.finite 4, utilization := GoFloat.finite (-2) })] ∧
    GoFloat.lt (GoFloat.finite 0) (GoFloat.finite 4) = true ∧
    GoFloat.le (GoFloat.finite 0) (GoFloat.finite (-2)) = false := by
  decide

/-- C3 amended: for every emitted record whose alloc is finite and
non-negative and whose total is finite, if total > 0 then utilization is
non-negative and equal to the code's division alloc / total; and if
total = 0 then utilization is non-finite.  (Finiteness of utilization for
total > 0, and the converse of the last implication, are not claimed:
under real float64 arithmetic the division can overflow to `+Inf` for
total > 0, e.g. alloc 1e300 with total 1e-300, which the exact-rational
model does not represent.) -/
theorem C3_amended_utilization (totals alloc : FMap) (k : Chars) (r : GPUsMetrics)
    (h : findRec (aggregate totals alloc) k = some r)
    (hfa : r.alloc.isFinite = true)
    (hnn : GoFloat.le (GoFloat.finite 0) r.alloc = true)
    (hft : r.total.isFinite = true) :
    (GoFloat.lt (GoFloat.finite 0) r.total = true →
      GoFloat.le (GoFloat.finite 0) r.utilization = true ∧
      r.utilization = GoFloat.div r.alloc r.total) ∧
    (r.total = GoFloat.finite 0 → r.utilization.isFinite = false) := by
  have hr : r = mkRec totals alloc k :=
    findRec_mapRec_inv totals alloc totals k r (by simpa [aggregate] using h)
  have hu : r.utilization = GoFloat.div r.alloc r.total := by
    rw [hr]; rfl
  obtain ⟨qa, ha⟩ : ∃ q, r.alloc = GoFloat.finite q := by
    cases hx : r.alloc <;> simp_all [GoFloat.isFinite]
  obtain ⟨qt, ht⟩ : ∃ q, r.total = GoFloat.finite q := by
    cases hx : r.total <;> simp_all [GoFloat.isFinite]
  rw [ha] at hnn
  simp only [GoFloat.le, decide_eq_true_eq] at hnn
  rw [hu, ha, ht]
  constructor
  · intro hlt
    simp only [GoFloat.lt, decide_eq_true_eq] at hlt
    have hq : qt ≠ 0 := ne_of_gt hlt
    refine ⟨?_, rfl⟩
    simp only [GoFloat.div, hq, if_false, GoFloat.le, decide_eq_true_eq]
    simpa using div_nonneg hnn (le_of_lt hlt)
  · intro h00
    have hq0 : qt = 0 := by simpa using h00
    subst hq0
    by_cases hz : qa = 0
    · subst hz; simp [GoFloat.div, GoFloat.isFinite]
    · simp only [GoFloat.div, if_true, hz, if_false]
      split <;> simp [GoFloat.isFinite]

/-- Witness for C3 amended at the round-trip sample record. -/
theorem C3_amended_witness :
    GoFloat.le (GoFloat.finite 0)
      ({ alloc := GoFloat.finite 2, idle := GoFloat.finite 2
       , total := GoFloat.finite 4, utilization := GoFloat.finite (1/2) } : GPUsMetrics).utilization
      = true :=
  ((C3_amended_utilization [("a100".data, GoFloat.finite 4)] [("a100".data, GoFloat.finite 2)]
      "a100".data
      { alloc := GoFloat.finite 2, idle := GoFloat.finite 2
      , total := GoFloat.finite 4, utilization := GoFloat.finite (1/2) }
      (by decide) (by decide) (by decide) (by decide)).1 (by decide)).1

/-- C4: a GPU type present in the Allocation Parser output but absent from
the Inventory Parser output is absent from the aggregated output. -/
theorem C4_allocated_only_dropped (a i k : Chars) (am tm : FMap)
    (out : List (Chars × GPUsMetrics))
    (h1 : ParseAllocatedGPUs a = some am) (h2 : ParseTotalGPUs i = some tm)
    (h3 : hasKey am k = true) (h4 : hasKey tm k = false)
    (h5 : ParseGPUsMetrics a i = some out) :
    findRec out k = none := by
  simp only [ParseGPUsMetrics, h1, h2, Option.some.injEq] at h5
  subst h5
  exact findRec_mapRec_none tm am tm k h4

/-- Witness for C4: `k80` is allocated but not in inventory, and is missing
from the aggregated output. -/
theorem C4_witness :
    findRec (aggregate [("a100".data, GoFloat.finite 4)] [("k80".data, GoFloat.finite 1)])
      "k80".data = none :=
  C4_allocated_only_dropped "gres/gpu:k80=1".data "node01 gpu:a100:4(S:0)".data "k80".data
    [("k80".data, GoFloat.finite 1)] [("a100".data, GoFloat.finite 4)]
    (aggregate [("a100".data, GoFloat.finite 4)] [("k80".data, GoFloat.finite 1)])
    (by decide) (by decide) (by decide) (by decide) (by decide)

/-- C5: both parsers return an empty map (and no failure) on empty input
text. -/
theorem C5_empty_input :
    ParseAllocatedGPUs "".data = some [] ∧ ParseTotalGPUs "".data = some [] := by
  decide

/-- C6: the Inventory Parser sums contributions for the same GPU type
across lines: the two-node `v100` sample accumulates to 4, and in general
the value for a key is the left fold of the code's float addition over
that key's per-node counts in encounter order (stated as the fold the loop
actually executes, one addition per token). -/
theorem C6_accumulates_across_nodes :
    (ParseTotalGPUs "node01 gpu:v100:2(S:0)\nnode02 gpu:v100:2(S:0)".data =
      some [("v100".data, GoFloat.finite 4)]) ∧
    (∀ (output : Chars) (m : FMap) (k : Chars),
      ParseTotalGPUs output = some m →
      findVal m k = (totalContribs output k).foldl GoFloat.add (GoFloat.finite 0)) := by
  refine ⟨by decide, ?_⟩
  intro output m k h
  rw [ParseTotalGPUs_eq] at h
  simpa [totalContribs, findVal] using findVal_totalLines_fold _ _ _ k h

/-- Witness for C6's fold statement on the two-node sample. -/
theorem C6_witness :
    findVal [("v100".data, GoFloat.finite 4)] "v100".data =
      (totalContribs "node01 gpu:v100:2(S:0)\nnode02 gpu:v100:2(S:0)".data "v100".data).foldl
        GoFloat.add (GoFloat.finite 0) :=
  C6_accumulates_across_nodes.2 "node01 gpu:v100:2(S:0)\nnode02 gpu:v100:2(S:0)".data
    [("v100".data, GoFloat.finite 4)] "v100".data (by decide)

/-- C7: a `gres/gpu:`-prefixed token whose count text does not parse as a
number contributes exactly zero for its type (the map values are unchanged)
and parsing continues without error; concretely, `gres/gpu:a100=xyz` yields
the entry `a100 = 0`. -/
theorem C7_malformed_count_is_zero :
    (ParseAllocatedGPUs "gres/gpu:a100=xyz".data = some [("a100".data, GoFloat.finite 0)]) ∧
    (∀ (m : FMap) (rs : List Chars) (d ty ct : Chars) (rest : List Chars),
      splitOnChar '=' d = ty :: ct :: rest →
      parseFloatO ct = none →
      allocResources m (("gres/gpu:".data ++ d) :: rs) =
        allocResources (addTo m ty (GoFloat.finite 0)) rs ∧
      (∀ k, findVal (addTo m ty (GoFloat.finite 0)) k = findVal m k)) := by
  refine ⟨by decide, ?_⟩
  intro m rs d ty ct rest hsp hbad
  constructor
  · simp only [allocResources, afterPre_append, hsp]
    simp [parseFloat, hbad]
  · intro k
    rw [findVal_addTo]
    by_cases h : ty = k <;> simp [h, GoFloat.add_zero]

/-- Witness for C7 on the token `gres/gpu:a100=xyz` from the empty state. -/
theorem C7_witness :
    allocResources [] [("gres/gpu:".data ++ "a100=xyz".data)] =
      allocResources (addTo [] "a100".data (GoFloat.finite 0)) [] ∧
    findVal (addTo [] "a100".data (GoFloat.finite 0)) "a100".data = findVal [] "a100".data :=
  ⟨(C7_malformed_count_is_zero.2 [] [] "a100=xyz".data "a100".data "xyz".data []
      (by decide) (by decide)).1,
   (C7_malformed_count_is_zero.2 [] [] "a100=xyz".data "a100".data "xyz".data []
      (by decide) (by decide)).2 "a100".data⟩

/-- C8 fails as stated: Go `strconv.ParseFloat` accepts a negative count
text, so the Allocation Parser can produce a negative map value. -/
theorem C8_counterexample :
    ParseAllocatedGPUs "gres/gpu:a100=-5".data =
      some [("a100".data, GoFloat.finite (-5))] ∧
    GoFloat.le (GoFloat.finite 0) (GoFloat.finite (-5)) = false := by
  decide

/-- C8 amended: when every count token of the input parses to a
non-negative value, every value of the map returned by the Allocation
Parser (respectively the Inventory Parser) is non-negative. -/
theorem C8_amended_nonneg :
    (∀ (output : Chars) (m : FMap),
      allocCountsNonneg output = true → ParseAllocatedGPUs output = some m →
      valsNonneg m = true) ∧
    (∀ (output : Chars) (m : FMap),
      totalCountsNonneg output = true → ParseTotalGPUs output = some m →
      valsNonneg m = true) := by
  constructor
  · intro output m hok h
    simp only [ParseAllocatedGPUs] at h
    by_cases he : output.length = 0
    · simp only [he, if_true, Option.some.injEq] at h
      subst h; rfl
    · simp only [he, if_false] at h
      exact allocLines_nonneg _ [] _ hok rfl h
  · intro output m hok h
    simp only [ParseTotalGPUs] at h
    by_cases he : output.length = 0
    · simp only [he, if_true, Option.some.injEq] at h
      subst h; rfl
    · simp only [he, if_false] at h
      exact totalLines_nonneg _ [] _ hok rfl h

/-- Witness for C8 amended on the two round-trip sample inputs. -/
theorem C8_amended_witness :
    valsNonneg [("a100".data, GoFloat.finite 2)] = true ∧
    valsNonneg [("a100".data, GoFloat.finite 4)] = true :=
  ⟨C8_amended_nonneg.1 "gres/gpu:a100=2".data [("a100".data, GoFloat.finite 2)]
      (by decide) (by decide),
   C8_amended_nonneg.2 "node01 gpu:a100:4(S:0)".data [("a100".data, GoFloat.finite 4)]
      (by decide) (by decide)⟩

/-- C9: the Inventory Parser is not total: a non-empty line with fewer than
two white-space fields, or a `gpu:`-prefixed token with fewer than three
colon segments, is an out-of-range access, modelled as `none`. -/
theorem C9_inventory_not_total :
    ParseTotalGPUs "node01".data = none ∧
    ParseTotalGPUs "node01 gpu:a100".data = none := by
  decide

/-- C10: the Allocation Parser is not total: a `gres/gpu:`-prefixed token
without `=` makes the `values[1]` access out of range, modelled as
`none`. -/
theorem C10_alloc_not_total :
    ParseAllocatedGPUs "gres/gpu:a100".data = none := by
  decide

end Slurm
